import Mathlib

/-!
Verification of the `google_sql_databases` data source
(`mmv1/third_party/terraform/data_sources/data_source_sql_databases.go`)
and its acceptance-test reconciliation helpers.

The Go code is shallowly embedded: each Go function becomes an executable
Lean definition with the same name; Go `([]T, error)` results become
`List T × Option String` (the slice together with an optional error),
Go `error` results become `Option String` (`some` = error), and fallible
calls become `Except String`.  Go slices are lists; the one place where
the code distinguishes a nil slice from an empty one (`flattenDatabases`)
takes an `Option (List _)`.

Go `regexp.MatchString` (an external library call) is modelled by a small
executable regex engine over the RE2 subset the data source exercises:
literal characters, `.` (any character except newline), character classes
`[...]`/`[^...]` with ranges, the quantifiers `*`, `+`, `?`, and `\`
escapes.  Unsupported constructs and syntax errors make the pattern fail
to compile (`parsePattern _ = none`), mirroring a Go compile error;
matching is unanchored, as in Go.
-/

deriving instance DecidableEq for Except

namespace SqlDatabases

/-- One atom of a compiled regex: a literal character, the dot, or a
character class given by ranges (a single character is the range `(c, c)`). -/
inductive RChar where
  | ch (c : Char)
  | dot
  | cls (neg : Bool) (items : List (Char × Char))
deriving DecidableEq

/-- Quantifier attached to an atom. -/
inductive RQuant where
  | one
  | star
  | plus
  | opt
deriving DecidableEq

/-- A compiled regex piece: an atom with its quantifier. -/
structure RPiece where
  atom : RChar
  q : RQuant
deriving DecidableEq

/-- Parse the body of a character class, up to the closing `]`.
Returns the ranges and the remaining input; `none` if the class is
unterminated (a compile error, as in Go). -/
def parseClassItems : List Char → Option (List (Char × Char) × List Char)
  | [] => none
  | ']' :: rest => some ([], rest)
  | c :: '-' :: d :: rest =>
    if d = ']' then
      some ([(c, c), ('-', '-')], rest)
    else
      match parseClassItems rest with
      | none => none
      | some (items, rest2) => some ((c, d) :: items, rest2)
  | c :: rest =>
    match parseClassItems rest with
    | none => none
    | some (items, rest2) => some ((c, c) :: items, rest2)

/-- Parse one atom.  Returns the atom and the remaining input; `none` on a
compile error (dangling escape, unterminated class, a quantifier with no
operand, or a construct outside the modelled subset). -/
def parseAtom : List Char → Option (RChar × List Char)
  | [] => none
  | '.' :: rest => some (.dot, rest)
  | '\\' :: c :: rest => some (.ch c, rest)
  | '\\' :: [] => none
  | '[' :: '^' :: rest =>
    match parseClassItems rest with
    | none => none
    | some (items, rest2) => some (.cls true items, rest2)
  | '[' :: rest =>
    match parseClassItems rest with
    | none => none
    | some (items, rest2) => some (.cls false items, rest2)
  | c :: rest =>
    if c = '*' ∨ c = '+' ∨ c = '?' ∨ c = '(' ∨ c = ')' ∨ c = '|' ∨
       c = '\x7b' ∨ c = '\x7d' ∨ c = '^' ∨ c = '$' ∨ c = ']' then none
    else some (.ch c, rest)

/-- Parse a whole pattern into pieces.  `fuel` bounds the recursion; every
step consumes at least one character, so `length + 1` fuel always
suffices. -/
def parsePiecesFuel : Nat → List Char → Option (List RPiece)
  | 0, _ => none
  | _ + 1, [] => some []
  | fuel + 1, l =>
    match parseAtom l with
    | none => none
    | some (a, rest) =>
      match rest with
      | '*' :: rest2 => (parsePiecesFuel fuel rest2).map (fun ps => ⟨a, .star⟩ :: ps)
      | '+' :: rest2 => (parsePiecesFuel fuel rest2).map (fun ps => ⟨a, .plus⟩ :: ps)
      | '?' :: rest2 => (parsePiecesFuel fuel rest2).map (fun ps => ⟨a, .opt⟩ :: ps)
      | rest2 => (parsePiecesFuel fuel rest2).map (fun ps => ⟨a, .one⟩ :: ps)

/-- Compile a pattern string; `none` models a Go regex compile error. -/
def parsePattern (pattern : String) : Option (List RPiece) :=
  parsePiecesFuel (pattern.toList.length + 1) pattern.toList

/-- Does an atom match one character?  `.` matches everything except the
newline, as in RE2 with default flags. -/
def matchRChar : RChar → Char → Bool
  | .ch c, x => c == x
  | .dot, x => x != '\n'
  | .cls neg items, x =>
    let inCls := items.any (fun p => decide (p.1 ≤ x) && decide (x ≤ p.2))
    if neg then !inCls else inCls

/-- Kleene-star matching: either the continuation `k` matches here, or the
atom consumes one character and the star continues. -/
def matchStar (a : RChar) (k : List Char → Bool) : List Char → Bool
  | [] => k []
  | c :: cs => k (c :: cs) || (matchRChar a c && matchStar a k cs)

/-- Does the piece list match a prefix of the input? -/
def matchHere : List RPiece → List Char → Bool
  | [], _ => true
  | ⟨_, .one⟩ :: _, [] => false
  | ⟨a, .one⟩ :: ps, c :: cs => matchRChar a c && matchHere ps cs
  | ⟨a, .star⟩ :: ps, s => matchStar a (matchHere ps) s
  | ⟨_, .plus⟩ :: _, [] => false
  | ⟨a, .plus⟩ :: ps, c :: cs => matchRChar a c && matchStar a (matchHere ps) cs
  | ⟨_, .opt⟩ :: ps, [] => matchHere ps []
  | ⟨a, .opt⟩ :: ps, c :: cs => matchHere ps (c :: cs) || (matchRChar a c && matchHere ps cs)

/-- Unanchored search: does the compiled pattern match starting at some
position of the input? -/
def searchFrom (pat : List RPiece) : List Char → Bool
  | [] => matchHere pat []
  | c :: cs => matchHere pat (c :: cs) || searchFrom pat cs

/-- Model of Go `regexp.MatchString pattern s`: `none` when the pattern
does not compile, otherwise `some` of the unanchored match result. -/
def MatchString (pattern s : String) : Option Bool :=
  (parsePattern pattern).map (fun pat => searchFrom pat s.toList)

/-- The fields of `sqladmin.Database` the data source reads
(`data_source_sql_databases.go` uses `Name`, `Instance`, `Project`,
`Charset`, `Collation`, `SelfLink`). -/
structure Database where
  Name : String
  Instance : String
  Project : String
  Charset : String
  Collation : String
  SelfLink : String
deriving DecidableEq

/-- One element of the `filters` list: the Terraform block
`{ name, values, exclude_values }` (`values` and `exclude_values` default
to empty lists when the optional attributes are absent). -/
structure Filter where
  name : String
  values : List String
  exclude_values : List String
deriving DecidableEq

/-- The inner loop of Go `regexMatch` over `filter["values"]`:
`b` accumulates `b || match`; the first pattern that fails to compile
aborts with `Invalid regex <pattern>`. -/
def regexMatchValues (field : String) : List String → Bool → Except String Bool
  | [], b => .ok b
  | regex :: rest, b =>
    match MatchString regex field with
    | none => .error ("Invalid regex " ++ regex)
    | some m => regexMatchValues field rest (b || m)

/-- The loop of Go `regexMatch` over `filter["exclude_values"]`: a match
forces `include = false`; a pattern that fails to compile aborts with
`Invalid regex <pattern>`.  The scan continues past a match. -/
def regexMatchExcludes (field : String) : List String → Bool → Except String Bool
  | [], inc => .ok inc
  | regex :: rest, inc =>
    match MatchString regex field with
    | none => .error ("Invalid regex " ++ regex)
    | some m => regexMatchExcludes field rest (if m then false else inc)

/-- Go `regexMatch(filter, field, include)`.  First the include patterns
(`include && b` only when `values` is non-empty), then the exclude
patterns.  On error Go additionally returns the current `include` value,
which every caller discards, so the model returns only the error. -/
def regexMatch (filter : Filter) (field : String) (inc : Bool) : Except String Bool :=
  match regexMatchValues field filter.values false with
  | .error e => .error e
  | .ok b =>
    regexMatchExcludes field filter.exclude_values
      (if filter.values.length > 0 then inc && b else inc)

/-- The inner clause loop of Go `applyFilterOnDatabases` for one record
`d`: a `nil` clause is skipped (`continue`); once `include` is false the
loop breaks; otherwise the `switch` on `filter["name"]` dispatches on the
field and an unrecognized name aborts with `Invalid filter`. -/
def evalClauses (d : Database) : List (Option Filter) → Bool → Except String Bool
  | [], inc => .ok inc
  | none :: fs, inc => evalClauses d fs inc
  | some filter :: fs, inc =>
    if inc = false then .ok inc
    else if filter.name = "name" then
      match regexMatch filter d.Name inc with
      | .error e => .error e
      | .ok i => evalClauses d fs i
    else if filter.name = "charset" then
      match regexMatch filter d.Charset inc with
      | .error e => .error e
      | .ok i => evalClauses d fs i
    else if filter.name = "collation" then
      match regexMatch filter d.Collation inc with
      | .error e => .error e
      | .ok i => evalClauses d fs i
    else .error "Invalid filter"

/-- The record loop of Go `applyFilterOnDatabases`: surviving records are
appended in input order; the first clause error returns the records
accumulated so far together with the error. -/
def applyFilterLoop (databaseFilters : List (Option Filter)) : List Database → List Database × Option String
  | [] => ([], none)
  | d :: ds =>
    match evalClauses d databaseFilters true with
    | .error e => ([], some e)
    | .ok inc =>
      match applyFilterLoop databaseFilters ds with
      | (rest, err) => (if inc then d :: rest else rest, err)

/-- Go `applyFilterOnDatabases(databases, databaseFilters)`: empty input
returns immediately (no clause is ever evaluated), otherwise the record
loop runs. -/
def applyFilterOnDatabases (databases : List Database) (databaseFilters : List (Option Filter)) :
    List Database × Option String :=
  if databases.length = 0 then (databases, none)
  else applyFilterLoop databaseFilters databases

/-- The wire shape of one entry of the computed `databases` attribute:
Go builds a `map[string]interface{}`, modelled as an association list. -/
abbrev FlatDatabase := List (String × String)

/-- The per-record body of Go `flattenDatabases`: the six copied fields,
in the order the Go code assigns them. -/
def flattenDatabase (rawDatabase : Database) : FlatDatabase :=
  [("name", rawDatabase.Name),
   ("instance", rawDatabase.Instance),
   ("project", rawDatabase.Project),
   ("charset", rawDatabase.Charset),
   ("collation", rawDatabase.Collation),
   ("self_link", rawDatabase.SelfLink)]

/-- Go `flattenDatabases(fetchedDatabases)`.  The input distinguishes a
nil slice (`none`) from a non-nil one; the output is always a non-nil
slice (`some _`), empty for nil input. -/
def flattenDatabases : Option (List Database) → Option (List FlatDatabase)
  | none => some []
  | some fetchedDatabases => some (fetchedDatabases.map flattenDatabase)

/-- The filter-and-project tail of Go `dataSourceSqlDatabasesRead`, after
the fetch succeeded: `items` is `databases.Items` (possibly nil),
`filters` is `none` when the `filters` attribute is absent.  A filter
error is returned as is and nothing is assigned to `databases`; otherwise
the flattened list is assigned.  (Go passes a possibly-nil empty slice
through `applyFilterOnDatabases`; nil and empty both flatten to the empty
list, so the model normalizes the filter input with `getD []`.) -/
def dataSourceSqlDatabasesRead (items : Option (List Database))
    (filters : Option (List (Option Filter))) : Except String (Option (List FlatDatabase)) :=
  match filters with
  | some fs =>
    match applyFilterOnDatabases (items.getD []) fs with
    | (_, some e) => .error e
    | (filteredDatabases, none) => .ok (flattenDatabases (some filteredDatabases))
  | none => .ok (flattenDatabases items)

/-- Lookup in a Go `map[string]string`: a missing key reads as the zero
value `""`.  Terraform state attribute maps are modelled as association
lists. -/
def getAttr (attrs : List (String × String)) (k : String) : String :=
  (attrs.lookup k).getD ""

/-- Go `strconv.Atoi`: an optional sign followed by at least one decimal
digit; anything else is an error (`none`). -/
def parseDigitsAux : List Char → Nat → Option Nat
  | [], acc => some acc
  | c :: cs, acc =>
    if '0' ≤ c ∧ c ≤ '9' then parseDigitsAux cs (acc * 10 + (c.toNat - '0'.toNat))
    else none

/-- See `parseDigitsAux`; dispatches on the optional sign. -/
def strconvAtoi (s : String) : Option Int :=
  match s.toList with
  | [] => none
  | '-' :: [] => none
  | '-' :: cs => (parseDigitsAux cs 0).map (fun n => -(n : Int))
  | '+' :: [] => none
  | '+' :: cs => (parseDigitsAux cs 0).map (fun n => (n : Int))
  | cs => (parseDigitsAux cs 0).map (fun n => (n : Int))

/-- The index-finding loop of
`checkDatabaseFieldsMatchForDataSourceStateAndResourceState`: `index`
starts as `"-1"` and is overwritten by `strconv.Itoa(i)` for every `i`
whose `databases.<i>.name` equals the resource name, so the last match
wins. -/
def findIndex (dsAttr rsAttr : List (String × String)) (totalInstances : Nat) : String :=
  (List.range totalInstances).foldl
    (fun index i =>
      if getAttr dsAttr ("databases." ++ toString i ++ ".name") == getAttr rsAttr "name"
      then toString i else index)
    "-1"

/-- Go `k[len(k)-1:] == "#"`: the key ends in the count marker `#`.
(For valid UTF-8 the last byte is `#` exactly when the last character is;
Go would panic on an empty key, the model returns `false`.) -/
def endsInHash (k : String) : Bool :=
  k.toList.getLast? == some '#'

/-- One line of the aggregated mismatch message:
`fmt.Sprintf("%s is %s; want %s\n", k, dsAttr[...], rsAttr[k])`. -/
def mismatchLine (dsAttr rsAttr : List (String × String)) (index k : String) : String :=
  k ++ " is " ++ getAttr dsAttr ("databases." ++ index ++ "." ++ k) ++ "; want " ++
    getAttr rsAttr k ++ "\n"

/-- The per-key skip conditions of the comparison loop, folded into one
boolean: the key is ignored, is the meta key `%`, the two values agree,
or the key is count-suffixed and both sides are empty (`""` or `"0"`). -/
def fieldPass (dsAttr rsAttr : List (String × String)) (ignoreFields : List String)
    (index k : String) : Bool :=
  ignoreFields.contains k || k == "%" ||
    (let dsVal := getAttr dsAttr ("databases." ++ index ++ "." ++ k)
     let rsVal := getAttr rsAttr k
     dsVal == rsVal ||
       (endsInHash k && (dsVal == "" || dsVal == "0") && (rsVal == "" || rsVal == "0")))

/-- One step of the `errMsg` accumulation: a key that does not pass
appends its mismatch line. -/
def errStep (dsAttr rsAttr : List (String × String)) (ignoreFields : List String)
    (index : String) (errMsg k : String) : String :=
  if fieldPass dsAttr rsAttr ignoreFields index k then errMsg
  else errMsg ++ mismatchLine dsAttr rsAttr index k

/-- The `errMsg` accumulation over the keys of the resource state. -/
def fieldsErrMsg (dsAttr rsAttr : List (String × String)) (ignoreFields : List String)
    (index : String) : String :=
  (rsAttr.map Prod.fst).foldl (errStep dsAttr rsAttr ignoreFields index) ""

/-- Go `checkDatabaseFieldsMatchForDataSourceStateAndResourceState`:
`some msg` models a returned error, `none` models success.  (Go iterates
the resource attribute map in unspecified order; the model iterates the
association list in order — the properties proved below do not depend on
the order.) -/
def checkDatabaseFieldsMatchForDataSourceStateAndResourceState
    (dsAttr rsAttr : List (String × String)) (ignoreFields : List String) : Option String :=
  match strconvAtoi (getAttr dsAttr "databases.#") with
  | none => some "Couldn\x27t convert length of instances list to integer"
  | some totalInstances =>
    let index := findIndex dsAttr rsAttr totalInstances.toNat
    if index == "-1" then
      some "The newly created intance is not found in the data source"
    else
      let errMsg := fieldsErrMsg dsAttr rsAttr ignoreFields index
      if errMsg != "" then some errMsg else none

/-- The field of a record a clause name resolves to (the three arms of
the Go `switch`); `none` for an unrecognized name. -/
def fieldValue (d : Database) (name : String) : Option String :=
  if name = "name" then some d.Name
  else if name = "charset" then some d.Charset
  else if name = "collation" then some d.Collation
  else none

/-- Is the clause field name one of the three the `switch` recognizes? -/
def recognizedField (s : String) : Bool :=
  s == "name" || s == "charset" || s == "collation"

/-- Does a record pass the whole clause list (the code evaluation ends in
`include = true`)? -/
def passesAll (fs : List (Option Filter)) (d : Database) : Bool :=
  match evalClauses d fs true with
  | .ok true => true
  | _ => false

/-- Does `sub` occur as a substring of `s`? -/
def containsSubstr (s sub : String) : Bool :=
  s.toList.tails.any (fun t => sub.toList.isPrefixOf t)

/-- The records of test scenario B
(`testAccDataSourceSqlDatabases_nameFilter`). -/
def mysqlDb1 : Database :=
  ⟨"mysql-db1", "tf-test-instance", "test-project", "utf8", "utf8_general_ci", "link1"⟩

/-- Second record of scenario B. -/
def mysqlDb2 : Database :=
  ⟨"mysql-db2", "tf-test-instance", "test-project", "utf8", "utf8_general_ci", "link2"⟩

/-- Third record of scenario B. -/
def mysqlDb3 : Database :=
  ⟨"mysql-db3", "tf-test-instance", "test-project", "utf8mb4", "utf8mb4_bin", "link3"⟩

/-- The scenario-B filter clause:
`{name = "name", values = [".*[0-9]"], exclude_values = [".*2", ".*3"]}`. -/
def scenarioBClause : Filter :=
  ⟨"name", [".*[0-9]"], [".*2", ".*3"]⟩

/-- Once `include` is false, the remaining clauses are never evaluated:
the loop breaks at the first non-nil clause. -/
theorem evalClauses_false (d : Database) : ∀ fs : List (Option Filter),
    evalClauses d fs false = .ok false := by
  intro fs
  induction fs with
  | nil => rfl
  | cons f fs ih =>
    cases f with
    | none => simpa [evalClauses] using ih
    | some filter => simp [evalClauses]

/-- With `include` still true, a clause whose field name the `switch`
does not recognize aborts with `Invalid filter`. -/
theorem evalClauses_cons_unrecognized (d : Database) (filter : Filter)
    (fs : List (Option Filter)) (hfv : fieldValue d filter.name = none) :
    evalClauses d (some filter :: fs) true = .error "Invalid filter" := by
  unfold fieldValue at hfv
  by_cases h1 : filter.name = "name"
  · rw [if_pos h1] at hfv; exact absurd hfv (by simp)
  · by_cases h2 : filter.name = "charset"
    · rw [if_neg h1, if_pos h2] at hfv; exact absurd hfv (by simp)
    · by_cases h3 : filter.name = "collation"
      · rw [if_neg h1, if_neg h2, if_pos h3] at hfv; exact absurd hfv (by simp)
      · simp only [evalClauses]
        rw [if_neg (show ¬(true = false) by simp), if_neg h1, if_neg h2, if_neg h3]

/-- With `include` still true, a clause step whose `regexMatch` fails
propagates that error. -/
theorem evalClauses_cons_error (d : Database) (filter : Filter) (fs : List (Option Filter))
    (v : String) (e : String) (hfv : fieldValue d filter.name = some v)
    (hrm : regexMatch filter v true = .error e) :
    evalClauses d (some filter :: fs) true = .error e := by
  unfold fieldValue at hfv
  simp only [evalClauses]
  rw [if_neg (show ¬(true = false) by simp)]
  by_cases h1 : filter.name = "name"
  · rw [if_pos h1]
    rw [if_pos h1] at hfv
    have hv : d.Name = v := by simpa using hfv
    rw [hv, hrm]
  · by_cases h2 : filter.name = "charset"
    · rw [if_neg h1, if_pos h2]
      rw [if_neg h1, if_pos h2] at hfv
      have hv : d.Charset = v := by simpa using hfv
      rw [hv, hrm]
    · by_cases h3 : filter.name = "collation"
      · rw [if_neg h1, if_neg h2, if_pos h3]
        rw [if_neg h1, if_neg h2, if_pos h3] at hfv
        have hv : d.Collation = v := by simpa using hfv
        rw [hv, hrm]
      · rw [if_neg h1, if_neg h2, if_neg h3] at hfv
        exact absurd hfv (by simp)

/-- With `include` still true, a successful clause step continues with
the `include` value `regexMatch` returned. -/
theorem evalClauses_cons_ok (d : Database) (filter : Filter) (fs : List (Option Filter))
    (v : String) (i : Bool) (hfv : fieldValue d filter.name = some v)
    (hrm : regexMatch filter v true = .ok i) :
    evalClauses d (some filter :: fs) true = evalClauses d fs i := by
  unfold fieldValue at hfv
  simp only [evalClauses]
  rw [if_neg (show ¬(true = false) by simp)]
  by_cases h1 : filter.name = "name"
  · rw [if_pos h1]
    rw [if_pos h1] at hfv
    have hv : d.Name = v := by simpa using hfv
    rw [hv, hrm]
  · by_cases h2 : filter.name = "charset"
    · rw [if_neg h1, if_pos h2]
      rw [if_neg h1, if_pos h2] at hfv
      have hv : d.Charset = v := by simpa using hfv
      rw [hv, hrm]
    · by_cases h3 : filter.name = "collation"
      · rw [if_neg h1, if_neg h2, if_pos h3]
        rw [if_neg h1, if_neg h2, if_pos h3] at hfv
        have hv : d.Collation = v := by simpa using hfv
        rw [hv, hrm]
      · rw [if_neg h1, if_neg h2, if_neg h3] at hfv
        exact absurd hfv (by simp)

/-- Splitting the clause list: evaluating a concatenation threads the
`include` value through the first part. -/
theorem evalClauses_append (d : Database) : ∀ (fs₁ fs₂ : List (Option Filter)) (inc : Bool),
    evalClauses d (fs₁ ++ fs₂) inc =
      (evalClauses d fs₁ inc).bind (fun i => evalClauses d fs₂ i) := by
  intro fs₁
  induction fs₁ with
  | nil => intro fs₂ inc; rfl
  | cons f fs ih =>
    intro fs₂ inc
    cases f with
    | none => simpa [evalClauses] using ih fs₂ inc
    | some filter =>
      cases inc with
      | false =>
        rw [List.cons_append, evalClauses_false, evalClauses_false]
        show _ = evalClauses d fs₂ false
        rw [evalClauses_false]
      | true =>
        rw [List.cons_append]
        cases hv : fieldValue d filter.name with
        | none =>
          rw [evalClauses_cons_unrecognized d filter (fs ++ fs₂) hv,
            evalClauses_cons_unrecognized d filter fs hv]
          rfl
        | some v =>
          cases hrm : regexMatch filter v true with
          | error e =>
            rw [evalClauses_cons_error d filter (fs ++ fs₂) v e hv hrm,
              evalClauses_cons_error d filter fs v e hv hrm]
            rfl
          | ok i =>
            rw [evalClauses_cons_ok d filter (fs ++ fs₂) v i hv hrm,
              evalClauses_cons_ok d filter fs v i hv hrm]
            exact ih fs₂ i

/-- The exclude scan never turns a false `include` back to true. -/
theorem regexMatchExcludes_stays_false (field : String) :
    ∀ (rs : List String) (r : Bool),
      regexMatchExcludes field rs false = .ok r → r = false := by
  intro rs
  induction rs with
  | nil => intro r h; simpa [regexMatchExcludes] using h.symm
  | cons p rest ih =>
    intro r h
    simp only [regexMatchExcludes] at h
    cases hm : MatchString p field with
    | none => rw [hm] at h; exact absurd h (by simp)
    | some m =>
      rw [hm] at h
      cases m with
      | true => exact ih r (by simpa using h)
      | false => exact ih r (by simpa using h)

/-- If some exclude pattern matches, the exclude scan ends with
`include = false` (when it ends without error). -/
theorem regexMatchExcludes_match_false (field : String) :
    ∀ (rs : List String) (p : String) (inc r : Bool),
      p ∈ rs → MatchString p field = some true →
      regexMatchExcludes field rs inc = .ok r → r = false := by
  intro rs
  induction rs with
  | nil => intro p inc r hp; exact absurd hp (List.not_mem_nil p)
  | cons q rest ih =>
    intro p inc r hp hmatch h
    simp only [regexMatchExcludes] at h
    rcases List.mem_cons.mp hp with rfl | hp'
    · rw [hmatch] at h
      exact regexMatchExcludes_stays_false field rest r (by simpa using h)
    · cases hm : MatchString q field with
      | none => rw [hm] at h; exact absurd h (by simp)
      | some m =>
        rw [hm] at h
        exact ih p _ r hp' hmatch (by simpa using h)

/-- If some exclude pattern of a clause matches the field value, the
clause evaluation (when error-free) returns `include = false`. -/
theorem regexMatch_exclude_dominates (filter : Filter) (field : String) :
    ∀ (p : String) (inc r : Bool),
      p ∈ filter.exclude_values → MatchString p field = some true →
      regexMatch filter field inc = .ok r → r = false := by
  intro p inc r hp hmatch h
  unfold regexMatch at h
  cases hv : regexMatchValues field filter.values false with
  | error e => rw [hv] at h; exact absurd h (by simp)
  | ok b =>
    rw [hv] at h
    exact regexMatchExcludes_match_false field filter.exclude_values p _ r hp hmatch h

/-- Exclude dominance at the level of one record: if any clause of the
list resolves its field on `d` and one of its exclude patterns matches,
an error-free evaluation of the clause list ends with `include = false`. -/
theorem evalClauses_exclude_dominates (d : Database) :
    ∀ (fs : List (Option Filter)) (f : Filter) (p v : String) (inc r : Bool),
      some f ∈ fs → fieldValue d f.name = some v →
      p ∈ f.exclude_values → MatchString p v = some true →
      evalClauses d fs inc = .ok r → r = false := by
  intro fs
  induction fs with
  | nil => intro f p v inc r hf; exact absurd hf (List.not_mem_nil _)
  | cons g fs ih =>
    intro f p v inc r hf hfv hp hmatch h
    cases inc with
    | false =>
      rw [evalClauses_false] at h
      exact ((Except.ok.injEq _ _).mp h).symm
    | true =>
      rcases List.mem_cons.mp hf with rfl | hf'
      · -- the clause itself is at the head
        cases hrm : regexMatch f v true with
        | error e =>
          rw [evalClauses_cons_error d f fs v e hfv hrm] at h
          exact absurd h (by simp)
        | ok i =>
          rw [evalClauses_cons_ok d f fs v i hfv hrm] at h
          have hi : i = false := regexMatch_exclude_dominates f v p true i hp hmatch hrm
          rw [hi, evalClauses_false] at h
          exact ((Except.ok.injEq _ _).mp h).symm
      · -- the clause is in the tail
        cases g with
        | none =>
          simp only [evalClauses] at h
          exact ih f p v true r hf' hfv hp hmatch h
        | some filter =>
          cases hv : fieldValue d filter.name with
          | none =>
            rw [evalClauses_cons_unrecognized d filter fs hv] at h
            exact absurd h (by simp)
          | some w =>
            cases hrm : regexMatch filter w true with
            | error e =>
              rw [evalClauses_cons_error d filter fs w e hv hrm] at h
              exact absurd h (by simp)
            | ok i =>
              rw [evalClauses_cons_ok d filter fs w i hv hrm] at h
              exact ih f p v i r hf' hfv hp hmatch h

/-- `passesAll` reads off the result of the code evaluation. -/
theorem passesAll_eq (fs : List (Option Filter)) (d : Database) (inc : Bool)
    (h : evalClauses d fs true = .ok inc) : passesAll fs d = inc := by
  unfold passesAll
  rw [h]
  cases inc with
  | true => rfl
  | false => rfl

/-- Every record in the output of the record loop evaluated the clause
list to `include = true`. -/
theorem applyFilterLoop_mem (fs : List (Option Filter)) :
    ∀ (dbs : List Database) (x : Database),
      x ∈ (applyFilterLoop fs dbs).1 → evalClauses x fs true = .ok true := by
  intro dbs
  induction dbs with
  | nil => intro x hx; exact absurd hx (by simp [applyFilterLoop])
  | cons d ds ih =>
    intro x hx
    cases hev : evalClauses d fs true with
    | error e =>
      rw [show applyFilterLoop fs (d :: ds) = ([], some e) by
        simp only [applyFilterLoop, hev]] at hx
      exact absurd hx (by simp)
    | ok inc =>
      rcases hlp : applyFilterLoop fs ds with ⟨rest, err⟩
      rw [show applyFilterLoop fs (d :: ds) = (if inc then d :: rest else rest, err) by
        simp only [applyFilterLoop, hev, hlp]] at hx
      cases inc with
      | true =>
        rcases List.mem_cons.mp (by simpa using hx) with rfl | hx'
        · exact hev
        · exact ih x (by rw [hlp]; exact hx')
      | false => exact ih x (by rw [hlp]; simpa using hx)

/-- A record loop that ends without error returns exactly the
order-preserving sublist of records passing all clauses. -/
theorem applyFilterLoop_success (fs : List (Option Filter)) :
    ∀ dbs : List Database,
      (applyFilterLoop fs dbs).2 = none →
      (applyFilterLoop fs dbs).1 = dbs.filter (passesAll fs) := by
  intro dbs
  induction dbs with
  | nil => intro _; simp [applyFilterLoop]
  | cons d ds ih =>
    intro hok
    cases hev : evalClauses d fs true with
    | error e =>
      rw [show applyFilterLoop fs (d :: ds) = ([], some e) by
        simp only [applyFilterLoop, hev]] at hok
      exact absurd hok (by simp)
    | ok inc =>
      rcases hlp : applyFilterLoop fs ds with ⟨rest, err⟩
      rw [show applyFilterLoop fs (d :: ds) = (if inc then d :: rest else rest, err) by
        simp only [applyFilterLoop, hev, hlp]] at hok ⊢
      have herr : err = none := hok
      have hrest : rest = ds.filter (passesAll fs) := by
        have := ih (by rw [hlp, herr])
        rwa [hlp] at this
      rw [List.filter_cons, passesAll_eq fs d inc hev]
      cases inc with
      | true => simpa using hrest
      | false => simpa using hrest

/-- With no clauses, the record loop keeps every record. -/
theorem applyFilterLoop_nil_clauses :
    ∀ dbs : List Database, applyFilterLoop [] dbs = (dbs, none) := by
  intro dbs
  induction dbs with
  | nil => rfl
  | cons d ds ih => simp only [applyFilterLoop, evalClauses, ih]; rfl

/-- If every record evaluates to `include = false`, the record loop
returns the empty list with no error. -/
theorem applyFilterLoop_all_false (fs : List (Option Filter)) :
    ∀ dbs : List Database,
      (∀ d ∈ dbs, evalClauses d fs true = .ok false) →
      applyFilterLoop fs dbs = ([], none) := by
  intro dbs
  induction dbs with
  | nil => intro _; rfl
  | cons d ds ih =>
    intro hall
    have hd := hall d (by simp)
    have hrest := ih (fun x hx => hall x (List.mem_cons_of_mem d hx))
    simp [applyFilterLoop, hd, hrest]

/-- Pointwise equal clause evaluations give equal record loops. -/
theorem applyFilterLoop_congr (fs fs' : List (Option Filter))
    (hcong : ∀ x : Database, evalClauses x fs true = evalClauses x fs' true) :
    ∀ dbs : List Database, applyFilterLoop fs dbs = applyFilterLoop fs' dbs := by
  intro dbs
  induction dbs with
  | nil => rfl
  | cons d ds ih => simp only [applyFilterLoop, hcong d, ih]

/-- Reading off `passesAll` as a proposition. -/
theorem passesAll_true_iff (fs : List (Option Filter)) (d : Database) :
    passesAll fs d = true ↔ evalClauses d fs true = .ok true := by
  unfold passesAll
  cases hev : evalClauses d fs true with
  | error e => simp
  | ok inc => cases inc with
    | true => simp
    | false => simp

/-- Whether a pattern compiles does not depend on the searched string. -/
theorem MatchString_none_iff (p v : String) :
    MatchString p v = none ↔ parsePattern p = none := by
  unfold MatchString
  cases parsePattern p with
  | none => simp
  | some pat => simp

/-- The values scan succeeds when every pattern compiles. -/
theorem regexMatchValues_ok_of_wf (field : String) :
    ∀ (rs : List String) (b : Bool),
      (∀ p ∈ rs, parsePattern p ≠ none) →
      ∃ b2, regexMatchValues field rs b = .ok b2 := by
  intro rs
  induction rs with
  | nil => intro b _; exact ⟨b, rfl⟩
  | cons q rest ih =>
    intro b hwf
    cases hm : MatchString q field with
    | none =>
      exact absurd ((MatchString_none_iff q field).mp hm) (hwf q (by simp))
    | some m =>
      obtain ⟨b2, hb2⟩ := ih (b || m) (fun p hp => hwf p (List.mem_cons_of_mem q hp))
      exact ⟨b2, by simp only [regexMatchValues, hm]; exact hb2⟩

/-- The values scan fails on the first non-compiling pattern, naming it. -/
theorem regexMatchValues_error_of_bad (field : String) :
    ∀ (rs : List String) (b : Bool),
      (∃ p ∈ rs, parsePattern p = none) →
      ∃ q ∈ rs, parsePattern q = none ∧
        regexMatchValues field rs b = .error ("Invalid regex " ++ q) := by
  intro rs
  induction rs with
  | nil => intro b h; exact absurd h (by simp)
  | cons q rest ih =>
    intro b hbad
    cases hm : MatchString q field with
    | none =>
      refine ⟨q, by simp, (MatchString_none_iff q field).mp hm, ?_⟩
      simp only [regexMatchValues, hm]
    | some m =>
      have hq : parsePattern q ≠ none := by
        intro hq
        rw [← MatchString_none_iff q field] at hq
        rw [hm] at hq
        exact absurd hq (by simp)
      obtain ⟨p, hp, hpbad⟩ := hbad
      rcases List.mem_cons.mp hp with rfl | hp'
      · exact absurd hpbad hq
      · obtain ⟨q2, hq2mem, hq2bad, hq2err⟩ := ih (b || m) ⟨p, hp', hpbad⟩
        exact ⟨q2, List.mem_cons_of_mem q hq2mem, hq2bad, by
          simp only [regexMatchValues, hm]; exact hq2err⟩

/-- The exclude scan succeeds when every pattern compiles. -/
theorem regexMatchExcludes_ok_of_wf (field : String) :
    ∀ (rs : List String) (inc : Bool),
      (∀ p ∈ rs, parsePattern p ≠ none) →
      ∃ r, regexMatchExcludes field rs inc = .ok r := by
  intro rs
  induction rs with
  | nil => intro inc _; exact ⟨inc, rfl⟩
  | cons q rest ih =>
    intro inc hwf
    cases hm : MatchString q field with
    | none =>
      exact absurd ((MatchString_none_iff q field).mp hm) (hwf q (by simp))
    | some m =>
      obtain ⟨r, hr⟩ := ih (if m then false else inc) (fun p hp => hwf p (List.mem_cons_of_mem q hp))
      exact ⟨r, by simp only [regexMatchExcludes, hm]; exact hr⟩

/-- The exclude scan fails on the first non-compiling pattern, naming it. -/
theorem regexMatchExcludes_error_of_bad (field : String) :
    ∀ (rs : List String) (inc : Bool),
      (∃ p ∈ rs, parsePattern p = none) →
      ∃ q ∈ rs, parsePattern q = none ∧
        regexMatchExcludes field rs inc = .error ("Invalid regex " ++ q) := by
  intro rs
  induction rs with
  | nil => intro inc h; exact absurd h (by simp)
  | cons q rest ih =>
    intro inc hbad
    cases hm : MatchString q field with
    | none =>
      refine ⟨q, by simp, (MatchString_none_iff q field).mp hm, ?_⟩
      simp only [regexMatchExcludes, hm]
    | some m =>
      have hq : parsePattern q ≠ none := by
        intro hq
        rw [← MatchString_none_iff q field] at hq
        rw [hm] at hq
        exact absurd hq (by simp)
      obtain ⟨p, hp, hpbad⟩ := hbad
      rcases List.mem_cons.mp hp with rfl | hp'
      · exact absurd hpbad hq
      · obtain ⟨q2, hq2mem, hq2bad, hq2err⟩ := ih (if m then false else inc) ⟨p, hp', hpbad⟩
        exact ⟨q2, List.mem_cons_of_mem q hq2mem, hq2bad, by
          simp only [regexMatchExcludes, hm]; exact hq2err⟩

/-- `regexMatch` succeeds when every pattern of the clause compiles. -/
theorem regexMatch_ok_of_wf (f : Filter) (v : String) (inc : Bool)
    (hwf : ∀ p ∈ f.values ++ f.exclude_values, parsePattern p ≠ none) :
    ∃ r, regexMatch f v inc = .ok r := by
  obtain ⟨b, hb⟩ := regexMatchValues_ok_of_wf v f.values false
    (fun p hp => hwf p (List.mem_append_left _ hp))
  obtain ⟨r, hr⟩ := regexMatchExcludes_ok_of_wf v f.exclude_values
    (if f.values.length > 0 then inc && b else inc)
    (fun p hp => hwf p (List.mem_append_right _ hp))
  exact ⟨r, by unfold regexMatch; rw [hb]; exact hr⟩

/-- A clause containing a non-compiling pattern makes `regexMatch` fail,
whatever the field value, with an error naming an offending pattern. -/
theorem regexMatch_error_names (f : Filter) (v : String) (inc : Bool)
    (hbad : ∃ p ∈ f.values ++ f.exclude_values, parsePattern p = none) :
    ∃ q ∈ f.values ++ f.exclude_values, parsePattern q = none ∧
      regexMatch f v inc = .error ("Invalid regex " ++ q) := by
  by_cases hvals : ∃ p ∈ f.values, parsePattern p = none
  · obtain ⟨q, hqmem, hqbad, hqerr⟩ := regexMatchValues_error_of_bad v f.values false hvals
    exact ⟨q, List.mem_append_left _ hqmem, hqbad, by unfold regexMatch; rw [hqerr]⟩
  · push_neg at hvals
    have hexc : ∃ p ∈ f.exclude_values, parsePattern p = none := by
      obtain ⟨p, hp, hpbad⟩ := hbad
      rcases List.mem_append.mp hp with hpv | hpe
      · exact absurd hpbad (hvals p hpv)
      · exact ⟨p, hpe, hpbad⟩
    obtain ⟨b, hb⟩ := regexMatchValues_ok_of_wf v f.values false hvals
    obtain ⟨q, hqmem, hqbad, hqerr⟩ := regexMatchExcludes_error_of_bad v f.exclude_values
      (if f.values.length > 0 then inc && b else inc) hexc
    exact ⟨q, List.mem_append_right _ hqmem, hqbad, by unfold regexMatch; rw [hb]; exact hqerr⟩

/-- Whether `regexMatch` fails depends only on the clause, not on the
field value or the incoming `include`: a success transfers. -/
theorem regexMatch_ok_transfer (f : Filter) (v : String) (inc r : Bool)
    (h : regexMatch f v inc = .ok r) :
    ∀ (w : String) (i : Bool), ∃ r2, regexMatch f w i = .ok r2 := by
  intro w i
  by_cases hbad : ∃ p ∈ f.values ++ f.exclude_values, parsePattern p = none
  · obtain ⟨q, _, _, hqerr⟩ := regexMatch_error_names f v inc hbad
    rw [hqerr] at h
    exact absurd h (by simp)
  · push_neg at hbad
    exact regexMatch_ok_of_wf f w i hbad

/-- A clause name fails to resolve exactly when the `switch` does not
recognize it; in particular resolution does not depend on the record. -/
theorem fieldValue_none_iff (d : Database) (n : String) :
    fieldValue d n = none ↔ recognizedField n = false := by
  unfold fieldValue recognizedField
  by_cases h1 : n = "name"
  · subst h1; simp
  · by_cases h2 : n = "charset"
    · subst h2; simp
    · by_cases h3 : n = "collation"
      · subst h3; simp
      · simp [h1, h2, h3]

/-- A recognized clause name resolves on every record. -/
theorem fieldValue_some_of_recognized (d : Database) (n : String)
    (h : recognizedField n = true) : ∃ w, fieldValue d n = some w := by
  cases hv : fieldValue d n with
  | none => rw [fieldValue_none_iff] at hv; rw [h] at hv; exact absurd hv (by simp)
  | some w => exact ⟨w, rfl⟩

/-- Uniformity of clause errors: if one record passes the whole clause
list, no record can hit a clause error, because whether a clause errs
(unrecognized name or non-compiling pattern) does not depend on the
record. -/
theorem evalClauses_ok_no_error (x d : Database) :
    ∀ (fs : List (Option Filter)) (i : Bool) (e : String),
      evalClauses x fs true = .ok true → evalClauses d fs i = .error e → False := by
  intro fs
  induction fs with
  | nil =>
    intro i e _ hd
    exact absurd hd (by simp [evalClauses])
  | cons g fs ih =>
    intro i e hx hd
    cases g with
    | none =>
      simp only [evalClauses] at hx hd
      exact ih i e hx hd
    | some filter =>
      cases hv : fieldValue x filter.name with
      | none =>
        rw [evalClauses_cons_unrecognized x filter fs hv] at hx
        exact absurd hx (by simp)
      | some v =>
        cases hrm : regexMatch filter v true with
        | error e2 =>
          rw [evalClauses_cons_error x filter fs v e2 hv hrm] at hx
          exact absurd hx (by simp)
        | ok ix =>
          rw [evalClauses_cons_ok x filter fs v ix hv hrm] at hx
          have hix : ix = true := by
            cases hix : ix with
            | true => rfl
            | false =>
              rw [hix, evalClauses_false] at hx
              exact absurd hx (by simp)
          rw [hix] at hx
          cases i with
          | false =>
            rw [evalClauses_false] at hd
            exact absurd hd (by simp)
          | true =>
            have hrec : recognizedField filter.name = true := by
              cases hr : recognizedField filter.name with
              | true => rfl
              | false =>
                rw [← fieldValue_none_iff x filter.name] at hr
                rw [hr] at hv
                exact absurd hv (by simp)
            obtain ⟨w, hw⟩ := fieldValue_some_of_recognized d filter.name hrec
            obtain ⟨rd, hrd⟩ := regexMatch_ok_transfer filter v true ix hrm w true
            rw [evalClauses_cons_ok d filter fs w rd hw hrd] at hd
            exact ih rd e hx hd

/-- Where the record loop fails: the input splits at the first record
whose evaluation errs; everything before it evaluated without error, and
the partial result is the surviving prefix. -/
theorem applyFilterLoop_error_decomp (fs : List (Option Filter)) :
    ∀ (dbs : List Database) (e : String),
      (applyFilterLoop fs dbs).2 = some e →
      ∃ pre d post, dbs = pre ++ d :: post ∧
        evalClauses d fs true = .error e ∧
        (∀ x ∈ pre, ∃ b, evalClauses x fs true = .ok b) ∧
        (applyFilterLoop fs dbs).1 = pre.filter (passesAll fs) := by
  intro dbs
  induction dbs with
  | nil => intro e h; exact absurd h (by simp [applyFilterLoop])
  | cons d ds ih =>
    intro e herr
    cases hev : evalClauses d fs true with
    | error e0 =>
      rw [show applyFilterLoop fs (d :: ds) = ([], some e0) by
        simp only [applyFilterLoop, hev]] at herr ⊢
      have he : e0 = e := by simpa using herr
      subst he
      exact ⟨[], d, ds, by simp, hev, by simp, by simp⟩
    | ok inc =>
      rcases hlp : applyFilterLoop fs ds with ⟨rest, err⟩
      rw [show applyFilterLoop fs (d :: ds) = (if inc then d :: rest else rest, err) by
        simp only [applyFilterLoop, hev, hlp]] at herr ⊢
      obtain ⟨pre, d2, post, hsplit, hfail, hpre, hres⟩ := ih e (by rw [hlp]; exact herr)
      rw [hlp] at hres
      refine ⟨d :: pre, d2, post, by rw [hsplit]; rfl, hfail, ?_, ?_⟩
      · intro x hx
        rcases List.mem_cons.mp hx with rfl | hx'
        · exact ⟨inc, hev⟩
        · exact hpre x hx'
      · show (if inc then d :: rest else rest) = _
        rw [List.filter_cons, passesAll_eq fs d inc hev]
        cases inc with
        | true => simpa using hres
        | false => simpa using hres

/-- When the record loop fails, its partial result is empty: the failing
record is the first one to reach the erring clause, so every earlier
record was excluded before reaching it. -/
theorem applyFilterLoop_error_empty (fs : List (Option Filter)) (dbs : List Database)
    (e : String) (herr : (applyFilterLoop fs dbs).2 = some e) :
    (applyFilterLoop fs dbs).1 = [] := by
  obtain ⟨pre, d, post, _, hfail, _, hres⟩ := applyFilterLoop_error_decomp fs dbs e herr
  rw [hres]
  rw [List.filter_eq_nil_iff]
  intro x hx
  intro hpass
  rw [passesAll_true_iff] at hpass
  exact evalClauses_ok_no_error x d fs true e hpass hfail

/-- A clause with a recognized field name and no patterns at all is the
identity on `include`. -/
theorem regexMatch_neutral (f : Filter) (v : String) (inc : Bool)
    (hv : f.values = []) (he : f.exclude_values = []) :
    regexMatch f v inc = .ok inc := by
  unfold regexMatch
  rw [hv, he]
  rfl

/-- A neutral clause (recognized name, no patterns) can be dropped from
the head of the clause list. -/
theorem evalClauses_neutral_cons (d : Database) (f : Filter)
    (hrec : recognizedField f.name = true) (hv : f.values = []) (he : f.exclude_values = []) :
    ∀ (fs : List (Option Filter)) (inc : Bool),
      evalClauses d (some f :: fs) inc = evalClauses d fs inc := by
  intro fs inc
  cases inc with
  | false => rw [evalClauses_false, evalClauses_false]
  | true =>
    obtain ⟨w, hw⟩ := fieldValue_some_of_recognized d f.name hrec
    rw [evalClauses_cons_ok d f fs w true hw (regexMatch_neutral f w true hv he)]

/-- A neutral clause can be dropped anywhere in the clause list. -/
theorem evalClauses_neutral_insert (d : Database) (f : Filter)
    (hrec : recognizedField f.name = true) (hv : f.values = []) (he : f.exclude_values = []) :
    ∀ (fs₁ fs₂ : List (Option Filter)) (inc : Bool),
      evalClauses d (fs₁ ++ some f :: fs₂) inc = evalClauses d (fs₁ ++ fs₂) inc := by
  intro fs₁ fs₂ inc
  rw [evalClauses_append, evalClauses_append]
  congr 1
  funext i
  exact evalClauses_neutral_cons d f hrec hv he fs₂ i

/-- If the input is empty the whole filter returns it unchanged with no
error (first `if` of `applyFilterOnDatabases`). -/
theorem applyFilterOnDatabases_nil (fs : List (Option Filter)) :
    applyFilterOnDatabases [] fs = ([], none) := rfl

/-- On a non-empty input the filter is the record loop. -/
theorem applyFilterOnDatabases_cons (d : Database) (ds : List Database)
    (fs : List (Option Filter)) :
    applyFilterOnDatabases (d :: ds) fs = applyFilterLoop fs (d :: ds) := by
  unfold applyFilterOnDatabases
  rw [if_neg (by simp)]

/-- C1 (confirmed): exclude dominance.  For every record and clause
list, if some clause resolves its field on the record and one of that
`exclude_values` patterns of that clause matches the resolved value, and
`applyFilterOnDatabases` returns without error, then the record is absent
from the output — regardless of any include pattern matching. -/
theorem C1_exclude_dominance
    (dbs : List Database) (fs : List (Option Filter)) (res : List Database)
    (d : Database) (f : Filter) (p v : String)
    (hd : d ∈ dbs) (hf : some f ∈ fs) (hp : p ∈ f.exclude_values)
    (hfv : fieldValue d f.name = some v) (hmatch : MatchString p v = some true)
    (hsucc : applyFilterOnDatabases dbs fs = (res, none)) :
    d ∉ res := by
  intro hdres
  cases dbs with
  | nil => exact absurd hd (by simp)
  | cons d0 ds =>
    rw [applyFilterOnDatabases_cons] at hsucc
    have h1 : d ∈ (applyFilterLoop fs (d0 :: ds)).1 := by rw [hsucc]; exact hdres
    have hok := applyFilterLoop_mem fs (d0 :: ds) d h1
    have := evalClauses_exclude_dominates d fs f p v true true hf hfv hp hmatch hok
    exact absurd this (by simp)

/-- Witness for C1 at a concrete input: `mysql-db2` is excluded by the
scenario-B clause. -/
theorem C1_exclude_dominance_witness : mysqlDb2 ∉ ([] : List Database) :=
  C1_exclude_dominance [mysqlDb2] [some scenarioBClause] [] mysqlDb2 scenarioBClause
    ".*2" "mysql-db2" (by decide) (by decide) (by decide) (by decide) (by decide) (by decide)

/-- C2 (confirmed): on success the output is exactly the subsequence of
input records whose clause evaluation ends in `include = true`, in input
order — hence its length is the count of passing records, and it is a
sublist (no duplication, no reordering) of the input. -/
theorem C2_success_is_ordered_filter
    (dbs : List Database) (fs : List (Option Filter)) (res : List Database)
    (hsucc : applyFilterOnDatabases dbs fs = (res, none)) :
    res = dbs.filter (passesAll fs) ∧
    res.length = dbs.countP (passesAll fs) ∧
    res.Sublist dbs := by
  have hres : res = dbs.filter (passesAll fs) := by
    cases dbs with
    | nil =>
      rw [applyFilterOnDatabases_nil] at hsucc
      have : ([] : List Database) = res := congrArg Prod.fst hsucc
      rw [← this]
      rfl
    | cons d0 ds =>
      rw [applyFilterOnDatabases_cons] at hsucc
      have h2 : (applyFilterLoop fs (d0 :: ds)).2 = none := by rw [hsucc]
      have := applyFilterLoop_success fs (d0 :: ds) h2
      rw [hsucc] at this
      exact this
  refine ⟨hres, ?_, ?_⟩
  · rw [hres, List.countP_eq_length_filter]
  · rw [hres]; exact List.filter_sublist dbs

/-- Witness for C2 at scenario B. -/
theorem C2_success_is_ordered_filter_witness :
    [mysqlDb1] = [mysqlDb1, mysqlDb2, mysqlDb3].filter (passesAll [some scenarioBClause]) ∧
    [mysqlDb1].length = [mysqlDb1, mysqlDb2, mysqlDb3].countP (passesAll [some scenarioBClause]) ∧
    [mysqlDb1].Sublist [mysqlDb1, mysqlDb2, mysqlDb3] :=
  C2_success_is_ordered_filter [mysqlDb1, mysqlDb2, mysqlDb3] [some scenarioBClause]
    [mysqlDb1] (by decide)

/-- C5 (confirmed): scenario B.  Three records `mysql-db1`, `mysql-db2`,
`mysql-db3` with the clause
`{name: "name", values: [".*[0-9]"], exclude_values: [".*2", ".*3"]}`
yield exactly `[mysql-db1]`; `mysql-db2` and `mysql-db3` are absent. -/
theorem C5_scenarioB :
    applyFilterOnDatabases [mysqlDb1, mysqlDb2, mysqlDb3] [some scenarioBClause] =
      ([mysqlDb1], none) ∧
    mysqlDb2 ∉ (applyFilterOnDatabases [mysqlDb1, mysqlDb2, mysqlDb3] [some scenarioBClause]).1 ∧
    mysqlDb3 ∉ (applyFilterOnDatabases [mysqlDb1, mysqlDb2, mysqlDb3] [some scenarioBClause]).1 :=
  ⟨by decide, by decide, by decide⟩

/-- C6 (confirmed): the empty clause list is the identity filter, and a
clause with a recognized field name and empty `values` and
`exclude_values` never changes the outcome, wherever it sits in the
clause list. -/
theorem C6_identity_and_neutral :
    (∀ dbs : List Database, applyFilterOnDatabases dbs [] = (dbs, none)) ∧
    (∀ (dbs : List Database) (fs₁ fs₂ : List (Option Filter)) (f : Filter),
      recognizedField f.name = true → f.values = [] → f.exclude_values = [] →
      applyFilterOnDatabases dbs (fs₁ ++ some f :: fs₂) =
        applyFilterOnDatabases dbs (fs₁ ++ fs₂)) := by
  constructor
  · intro dbs
    cases dbs with
    | nil => rfl
    | cons d0 ds =>
      rw [applyFilterOnDatabases_cons]
      exact applyFilterLoop_nil_clauses (d0 :: ds)
  · intro dbs fs₁ fs₂ f hrec hv he
    cases dbs with
    | nil => rfl
    | cons d0 ds =>
      rw [applyFilterOnDatabases_cons, applyFilterOnDatabases_cons]
      exact applyFilterLoop_congr _ _
        (fun x => evalClauses_neutral_insert x f hrec hv he fs₁ fs₂ true) (d0 :: ds)

/-- Witness for C6: inserting the neutral charset clause in front of the
scenario-B clause changes nothing. -/
theorem C6_identity_and_neutral_witness :
    applyFilterOnDatabases [mysqlDb1] ([] ++ some (⟨"charset", [], []⟩ : Filter) ::
        [some scenarioBClause]) =
      applyFilterOnDatabases [mysqlDb1] ([] ++ [some scenarioBClause]) :=
  C6_identity_and_neutral.2 [mysqlDb1] [] [some scenarioBClause] ⟨"charset", [], []⟩
    (by decide) rfl rfl

/-- C7 (confirmed): the projector is total and never returns the absent
marker; its output has the input length, each entry carries exactly the
six fields copied from its record, and empty input yields the empty
(non-absent) output. -/
theorem C7_flatten_total (fetched : Option (List Database)) :
    flattenDatabases fetched ≠ none ∧
    flattenDatabases fetched = some ((fetched.getD []).map flattenDatabase) ∧
    ((fetched.getD []).map flattenDatabase).length = (fetched.getD []).length ∧
    (∀ db : Database,
      (flattenDatabase db).lookup "project" = some db.Project ∧
      (flattenDatabase db).lookup "instance" = some db.Instance ∧
      (flattenDatabase db).lookup "name" = some db.Name ∧
      (flattenDatabase db).lookup "charset" = some db.Charset ∧
      (flattenDatabase db).lookup "collation" = some db.Collation ∧
      (flattenDatabase db).lookup "self_link" = some db.SelfLink ∧
      (flattenDatabase db).length = 6) ∧
    flattenDatabases (some []) = some [] := by
  refine ⟨?_, ?_, by simp, fun db => ⟨rfl, rfl, rfl, rfl, rfl, rfl, rfl⟩, rfl⟩
  · cases fetched with
    | none => simp [flattenDatabases]
    | some l => simp [flattenDatabases]
  · cases fetched with
    | none => rfl
    | some l => rfl

/-- C9 (confirmed): clause errors are lazy.  An empty record sequence
always succeeds whatever the clauses; a record short-circuited to
exclusion by a clause prefix is immune to any later clause, however
invalid; and if every record is excluded by the prefix, the whole filter
succeeds with empty output regardless of the suffix clauses. -/
theorem C9_lazy_clause_errors :
    (∀ fs : List (Option Filter), applyFilterOnDatabases [] fs = ([], none)) ∧
    (∀ (d : Database) (fs₁ fs₂ : List (Option Filter)),
      evalClauses d fs₁ true = .ok false →
      evalClauses d (fs₁ ++ fs₂) true = .ok false) ∧
    (∀ (dbs : List Database) (fs₁ fs₂ : List (Option Filter)),
      (∀ d ∈ dbs, evalClauses d fs₁ true = .ok false) →
      applyFilterOnDatabases dbs (fs₁ ++ fs₂) = ([], none)) := by
  refine ⟨fun fs => rfl, ?_, ?_⟩
  · intro d fs₁ fs₂ h
    rw [evalClauses_append, h]
    show evalClauses d fs₂ false = _
    rw [evalClauses_false]
  · intro dbs fs₁ fs₂ hall
    cases dbs with
    | nil => rfl
    | cons d0 ds =>
      rw [applyFilterOnDatabases_cons]
      apply applyFilterLoop_all_false
      intro d hd
      rw [evalClauses_append, hall d hd]
      show evalClauses d fs₂ false = _
      rw [evalClauses_false]

/-- Witness for C9: `mysql-db2`, excluded by the scenario-B clause, never
reaches a later clause that is both unrecognized and malformed. -/
theorem C9_lazy_clause_errors_witness :
    evalClauses mysqlDb2 ([some scenarioBClause] ++ [some ⟨"bogus", ["["], []⟩]) true =
      .ok false :=
  C9_lazy_clause_errors.2.1 mysqlDb2 [some scenarioBClause] [some ⟨"bogus", ["["], []⟩]
    (by decide)

/-- If some record of the input errs on the clause list, the record loop
ends in an error (though possibly the error of an earlier record). -/
theorem applyFilterLoop_error_of_mem (fs : List (Option Filter)) :
    ∀ (dbs : List Database) (d : Database) (e : String),
      d ∈ dbs → evalClauses d fs true = .error e →
      ∃ e2, (applyFilterLoop fs dbs).2 = some e2 := by
  intro dbs
  induction dbs with
  | nil => intro d e hd; exact absurd hd (by simp)
  | cons x ds ih =>
    intro d e hd hfail
    cases hev : evalClauses x fs true with
    | error e0 =>
      refine ⟨e0, ?_⟩
      rw [show applyFilterLoop fs (x :: ds) = ([], some e0) by
        simp only [applyFilterLoop, hev]]
    | ok inc =>
      rcases List.mem_cons.mp hd with rfl | hd'
      · rw [hev] at hfail; exact absurd hfail (by simp)
      · obtain ⟨e2, he2⟩ := ih d e hd' hfail
        rcases hlp : applyFilterLoop fs ds with ⟨rest, err⟩
        rw [hlp] at he2
        refine ⟨e2, ?_⟩
        rw [show applyFilterLoop fs (x :: ds) = (if inc then x :: rest else rest, err) by
          simp only [applyFilterLoop, hev, hlp]]
        exact he2

/-- C3 counterexample: the claim as stated is false.  The clause list
`[{name: "name", values: ["["], exclude_values: []}]` contains the
non-compiling pattern `[`, yet on an empty record sequence
`applyFilterOnDatabases` succeeds and the read returns (empty) output
rather than failing: the malformed pattern is never evaluated. -/
theorem C3_counterexample :
    parsePattern "[" = none ∧
    applyFilterOnDatabases [] [some ⟨"name", ["["], []⟩] = ([], none) ∧
    dataSourceSqlDatabasesRead (some []) (some [some ⟨"name", ["["], []⟩]) = .ok (some []) :=
  ⟨by decide, by decide, by decide⟩

/-- C3 amended (proved): a malformed regex is never treated as merely
"no match" — whenever a clause containing a non-compiling pattern is
evaluated, `regexMatch` fails naming an offending pattern
(`Invalid regex <pattern>`), whatever the field value; a record whose
evaluation errs makes the whole `applyFilterOnDatabases` invocation fail;
and a failing invocation makes the read return only the error, with no
partial output.  (But a clause no record evaluation reaches — e.g. with
an empty record sequence — causes no error at all.) -/
theorem C3_amended :
    (∀ (f : Filter) (v : String) (inc : Bool),
      (∃ p ∈ f.values ++ f.exclude_values, parsePattern p = none) →
      ∃ q ∈ f.values ++ f.exclude_values, parsePattern q = none ∧
        regexMatch f v inc = .error ("Invalid regex " ++ q)) ∧
    (∀ (dbs : List Database) (fs : List (Option Filter)) (d : Database) (e : String),
      d ∈ dbs → evalClauses d fs true = .error e →
      ∃ res e2, applyFilterOnDatabases dbs fs = (res, some e2)) ∧
    (∀ (items : Option (List Database)) (fs : List (Option Filter))
        (res : List Database) (e : String),
      applyFilterOnDatabases (items.getD []) fs = (res, some e) →
      dataSourceSqlDatabasesRead items (some fs) = .error e) := by
  refine ⟨regexMatch_error_names, ?_, ?_⟩
  · intro dbs fs d e hd hfail
    cases dbs with
    | nil => exact absurd hd (by simp)
    | cons d0 ds =>
      obtain ⟨e2, he2⟩ := applyFilterLoop_error_of_mem fs (d0 :: ds) d e hd hfail
      rcases hlp : applyFilterLoop fs (d0 :: ds) with ⟨rest, err⟩
      rw [hlp] at he2
      refine ⟨rest, e2, ?_⟩
      have herr2 : err = some e2 := he2
      rw [applyFilterOnDatabases_cons, hlp, herr2]
  · intro items fs res e happ
    simp [dataSourceSqlDatabasesRead, happ]

/-- Witness for C3 amended: a malformed exclude pattern that is actually
reached fails the read with an error naming it. -/
theorem C3_amended_witness :
    dataSourceSqlDatabasesRead (some [mysqlDb2]) (some [some ⟨"name", [".*"], ["["]⟩]) =
      .error "Invalid regex [" :=
  C3_amended.2.2 (some [mysqlDb2]) [some ⟨"name", [".*"], ["["]⟩] [] "Invalid regex ["
    (by decide)

/-- C4 counterexample: the claim as stated is false twice over.  With an
empty record sequence, a clause with the unrecognized field name `bogus`
does not fail the operation at all; and when it does fail (non-empty
records), the error is the fixed string `Invalid filter`, which does not
name the offending field value `bogus`. -/
theorem C4_counterexample :
    applyFilterOnDatabases [] [some ⟨"bogus", [], []⟩] = ([], none) ∧
    applyFilterOnDatabases [mysqlDb1] [some ⟨"bogus", [], []⟩] = ([], some "Invalid filter") ∧
    containsSubstr "Invalid filter" "bogus" = false :=
  ⟨by decide, by decide, by decide⟩

/-- A compiling pattern matches (to something) against every string. -/
theorem MatchString_some_of_parse (q f : String) (h : parsePattern q ≠ none) :
    ∃ m, MatchString q f = some m := by
  unfold MatchString
  cases hp : parsePattern q with
  | none => exact absurd hp h
  | some pat => exact ⟨searchFrom pat f.toList, rfl⟩

/-- A failing values scan implies a non-compiling pattern. -/
theorem regexMatchValues_error_bad (field : String) (rs : List String) (b : Bool)
    (e : String) (h : regexMatchValues field rs b = .error e) :
    ∃ p ∈ rs, parsePattern p = none := by
  by_contra hno
  push_neg at hno
  obtain ⟨b2, hok⟩ := regexMatchValues_ok_of_wf field rs b hno
  rw [hok] at h
  exact absurd h (by simp)

/-- A failing exclude scan implies a non-compiling pattern. -/
theorem regexMatchExcludes_error_bad (field : String) (rs : List String) (inc : Bool)
    (e : String) (h : regexMatchExcludes field rs inc = .error e) :
    ∃ p ∈ rs, parsePattern p = none := by
  by_contra hno
  push_neg at hno
  obtain ⟨r, hok⟩ := regexMatchExcludes_ok_of_wf field rs inc hno
  rw [hok] at h
  exact absurd h (by simp)

/-- The error of the values scan depends only on the pattern list, never
on the scanned field value or the accumulator. -/
theorem regexMatchValues_error_det :
    ∀ (rs : List String) (f1 f2 : String) (b1 b2 : Bool) (e1 e2 : String),
      regexMatchValues f1 rs b1 = .error e1 →
      regexMatchValues f2 rs b2 = .error e2 → e1 = e2 := by
  intro rs
  induction rs with
  | nil => intro f1 f2 b1 b2 e1 e2 h1; exact absurd h1 (by simp [regexMatchValues])
  | cons q rest ih =>
    intro f1 f2 b1 b2 e1 e2 h1 h2
    simp only [regexMatchValues] at h1 h2
    cases hm1 : MatchString q f1 with
    | none =>
      rw [hm1] at h1
      have hq : parsePattern q = none := (MatchString_none_iff q f1).mp hm1
      have hm2 : MatchString q f2 = none := (MatchString_none_iff q f2).mpr hq
      rw [hm2] at h2
      have he1 : ("Invalid regex " ++ q) = e1 := by simpa using h1
      have he2 : ("Invalid regex " ++ q) = e2 := by simpa using h2
      rw [← he1, ← he2]
    | some m1 =>
      rw [hm1] at h1
      have hq : parsePattern q ≠ none := by
        intro hq
        rw [← MatchString_none_iff q f1] at hq
        rw [hm1] at hq
        exact absurd hq (by simp)
      obtain ⟨m2, hm2⟩ := MatchString_some_of_parse q f2 hq
      rw [hm2] at h2
      exact ih f1 f2 (b1 || m1) (b2 || m2) e1 e2 (by simpa using h1) (by simpa using h2)

/-- The error of the exclude scan depends only on the pattern list. -/
theorem regexMatchExcludes_error_det :
    ∀ (rs : List String) (f1 f2 : String) (i1 i2 : Bool) (e1 e2 : String),
      regexMatchExcludes f1 rs i1 = .error e1 →
      regexMatchExcludes f2 rs i2 = .error e2 → e1 = e2 := by
  intro rs
  induction rs with
  | nil => intro f1 f2 i1 i2 e1 e2 h1; exact absurd h1 (by simp [regexMatchExcludes])
  | cons q rest ih =>
    intro f1 f2 i1 i2 e1 e2 h1 h2
    simp only [regexMatchExcludes] at h1 h2
    cases hm1 : MatchString q f1 with
    | none =>
      rw [hm1] at h1
      have hq : parsePattern q = none := (MatchString_none_iff q f1).mp hm1
      have hm2 : MatchString q f2 = none := (MatchString_none_iff q f2).mpr hq
      rw [hm2] at h2
      have he1 : ("Invalid regex " ++ q) = e1 := by simpa using h1
      have he2 : ("Invalid regex " ++ q) = e2 := by simpa using h2
      rw [← he1, ← he2]
    | some m1 =>
      rw [hm1] at h1
      have hq : parsePattern q ≠ none := by
        intro hq
        rw [← MatchString_none_iff q f1] at hq
        rw [hm1] at hq
        exact absurd hq (by simp)
      obtain ⟨m2, hm2⟩ := MatchString_some_of_parse q f2 hq
      rw [hm2] at h2
      exact ih f1 f2 (if m1 then false else i1) (if m2 then false else i2) e1 e2
        (by simpa using h1) (by simpa using h2)

/-- The error of `regexMatch` depends only on the clause: two failing
runs on different field values report the same message. -/
theorem regexMatch_error_det (f : Filter) (v1 v2 : String) (i1 i2 : Bool)
    (e1 e2 : String) (h1 : regexMatch f v1 i1 = .error e1)
    (h2 : regexMatch f v2 i2 = .error e2) : e1 = e2 := by
  unfold regexMatch at h1 h2
  cases hv1 : regexMatchValues v1 f.values false with
  | error ev1 =>
    rw [hv1] at h1
    have he1 : ev1 = e1 := by simpa using h1
    have hbad := regexMatchValues_error_bad v1 f.values false ev1 hv1
    cases hv2 : regexMatchValues v2 f.values false with
    | error ev2 =>
      rw [hv2] at h2
      have he2 : ev2 = e2 := by simpa using h2
      rw [← he1, ← he2]
      exact regexMatchValues_error_det f.values v1 v2 false false ev1 ev2 hv1 hv2
    | ok b2 =>
      obtain ⟨q, _, _, herr⟩ := regexMatchValues_error_of_bad v2 f.values false hbad
      rw [herr] at hv2
      exact absurd hv2 (by simp)
  | ok b1 =>
    rw [hv1] at h1
    cases hv2 : regexMatchValues v2 f.values false with
    | error ev2 =>
      have hbad := regexMatchValues_error_bad v2 f.values false ev2 hv2
      obtain ⟨q, _, _, herr⟩ := regexMatchValues_error_of_bad v1 f.values false hbad
      rw [herr] at hv1
      exact absurd hv1 (by simp)
    | ok b2 =>
      rw [hv2] at h2
      exact regexMatchExcludes_error_det f.exclude_values v1 v2 _ _ e1 e2 h1 h2

/-- Clause errors are clause-intrinsic: two records whose evaluations of
the same clause list err report the same error message, whatever their
field values and incoming `include` values. -/
theorem evalClauses_error_det :
    ∀ (fs : List (Option Filter)) (d x : Database) (i j : Bool) (e1 e2 : String),
      evalClauses d fs i = .error e1 → evalClauses x fs j = .error e2 → e1 = e2 := by
  intro fs
  induction fs with
  | nil => intro d x i j e1 e2 h1; exact absurd h1 (by simp [evalClauses])
  | cons g fs ih =>
    intro d x i j e1 e2 h1 h2
    cases g with
    | none =>
      simp only [evalClauses] at h1 h2
      exact ih d x i j e1 e2 h1 h2
    | some filter =>
      cases i with
      | false => rw [evalClauses_false] at h1; exact absurd h1 (by simp)
      | true =>
        cases j with
        | false => rw [evalClauses_false] at h2; exact absurd h2 (by simp)
        | true =>
          cases hvd : fieldValue d filter.name with
          | none =>
            rw [evalClauses_cons_unrecognized d filter fs hvd] at h1
            have hvx : fieldValue x filter.name = none := by
              rw [fieldValue_none_iff] at hvd ⊢
              exact hvd
            rw [evalClauses_cons_unrecognized x filter fs hvx] at h2
            have he1 : ("Invalid filter" : String) = e1 := by simpa using h1
            have he2 : ("Invalid filter" : String) = e2 := by simpa using h2
            rw [← he1, ← he2]
          | some v =>
            have hrec : recognizedField filter.name = true := by
              cases hr : recognizedField filter.name with
              | true => rfl
              | false =>
                rw [← fieldValue_none_iff d filter.name] at hr
                rw [hr] at hvd
                exact absurd hvd (by simp)
            obtain ⟨w, hw⟩ := fieldValue_some_of_recognized x filter.name hrec
            cases hrm : regexMatch filter v true with
            | error er =>
              rw [evalClauses_cons_error d filter fs v er hvd hrm] at h1
              have he1 : er = e1 := by simpa using h1
              cases hrmx : regexMatch filter w true with
              | error erx =>
                rw [evalClauses_cons_error x filter fs w erx hw hrmx] at h2
                have he2 : erx = e2 := by simpa using h2
                rw [← he1, ← he2]
                exact regexMatch_error_det filter v w true true er erx hrm hrmx
              | ok jx =>
                obtain ⟨r2, hr2⟩ := regexMatch_ok_transfer filter w true jx hrmx v true
                rw [hr2] at hrm
                exact absurd hrm (by simp)
            | ok id1 =>
              rw [evalClauses_cons_ok d filter fs v id1 hvd hrm] at h1
              cases hrmx : regexMatch filter w true with
              | error erx =>
                obtain ⟨r2, hr2⟩ := regexMatch_ok_transfer filter v true id1 hrm w true
                rw [hr2] at hrmx
                exact absurd hrmx (by simp)
              | ok jx =>
                rw [evalClauses_cons_ok x filter fs w jx hw hrmx] at h2
                exact ih d x id1 jx e1 e2 h1 h2

/-- If some record of the input errs with message `e`, the whole filter
fails with exactly that message and an empty partial result: every
erring record errs at the first faulty clause, whose message is
clause-intrinsic. -/
theorem applyFilterOnDatabases_error_exact (dbs : List Database)
    (fs : List (Option Filter)) (d : Database) (e : String)
    (hd : d ∈ dbs) (hfail : evalClauses d fs true = .error e) :
    applyFilterOnDatabases dbs fs = ([], some e) := by
  cases dbs with
  | nil => exact absurd hd (by simp)
  | cons d0 ds =>
    rw [applyFilterOnDatabases_cons]
    obtain ⟨e2, he2⟩ := applyFilterLoop_error_of_mem fs (d0 :: ds) d e hd hfail
    obtain ⟨pre, dfail, post, hsplit, hfail2, hpre, hres⟩ :=
      applyFilterLoop_error_decomp fs (d0 :: ds) e2 he2
    have hee : e = e2 := evalClauses_error_det fs d dfail true true e e2 hfail hfail2
    have hempty := applyFilterLoop_error_empty fs (d0 :: ds) e2 he2
    rcases hlp : applyFilterLoop fs (d0 :: ds) with ⟨res, err⟩
    rw [hlp] at he2 hempty
    have h2 : err = some e2 := he2
    have h1 : res = [] := hempty
    rw [h1, h2, ← hee]

/-- C4 amended (proved): when a record evaluation reaches a clause whose
field name is not `name`, `charset` or `collation` — at any position:
whenever the record evaluates the preceding clauses to `include = true` —
the evaluation fails with the fixed configuration error `Invalid filter`;
any record erring this way fails the whole operation (not a per-record
skip) with exactly that error and an empty partial result, and the read
returns only that error.  The error does not name the offending field
(see the counterexample), and a clause no record evaluation reaches
causes no error. -/
theorem C4_amended :
    (∀ (d : Database) (fs₁ fs₂ : List (Option Filter)) (f : Filter),
      recognizedField f.name = false →
      evalClauses d fs₁ true = .ok true →
      evalClauses d (fs₁ ++ some f :: fs₂) true = .error "Invalid filter") ∧
    (∀ (dbs : List Database) (fs : List (Option Filter)) (d : Database),
      d ∈ dbs → evalClauses d fs true = .error "Invalid filter" →
      applyFilterOnDatabases dbs fs = ([], some "Invalid filter") ∧
      dataSourceSqlDatabasesRead (some dbs) (some fs) = .error "Invalid filter") := by
  constructor
  · intro d fs₁ fs₂ f hunrec hreach
    rw [evalClauses_append, hreach]
    show evalClauses d (some f :: fs₂) true = _
    exact evalClauses_cons_unrecognized d f fs₂ ((fieldValue_none_iff d f.name).mpr hunrec)
  · intro dbs fs d hd hfail
    have happ := applyFilterOnDatabases_error_exact dbs fs d "Invalid filter" hd hfail
    exact ⟨happ, by simp [dataSourceSqlDatabasesRead, happ]⟩

/-- Witness for C4 amended: the unrecognized clause `bogus` sits after a
nil clause and a neutral charset clause, is still reached, and fails the
whole operation and the read with exactly `Invalid filter`. -/
theorem C4_amended_witness :
    evalClauses mysqlDb2 ([none, some ⟨"charset", [], []⟩] ++
      some (⟨"bogus", [], []⟩ : Filter) :: []) true = .error "Invalid filter" ∧
    applyFilterOnDatabases [mysqlDb2] ([none, some ⟨"charset", [], []⟩] ++
      some (⟨"bogus", [], []⟩ : Filter) :: []) = ([], some "Invalid filter") ∧
    dataSourceSqlDatabasesRead (some [mysqlDb2]) (some ([none, some ⟨"charset", [], []⟩] ++
      some (⟨"bogus", [], []⟩ : Filter) :: [])) = .error "Invalid filter" := by
  have h1 := C4_amended.1 mysqlDb2 [none, some ⟨"charset", [], []⟩] [] ⟨"bogus", [], []⟩
    (by decide) (by decide)
  have h2 := C4_amended.2 [mysqlDb2]
    ([none, some ⟨"charset", [], []⟩] ++ some (⟨"bogus", [], []⟩ : Filter) :: [])
    mysqlDb2 (by decide) h1
  exact ⟨h1, h2.1, h2.2⟩

/-- C10 counterexample: the claim as stated is false in its "not an
empty ... sequence" part — here `applyFilterOnDatabases` returns an
error and the accompanying sequence is empty. -/
theorem C10_counterexample :
    applyFilterOnDatabases [mysqlDb1] [some ⟨"name", ["["], []⟩] =
      ([], some "Invalid regex [") := by decide

/-- C10 amended (proved): whenever `applyFilterOnDatabases` returns an
error, the accompanying sequence is the partial result accumulated so
far — the survivors among the records fully processed before the failing
record — and the read operation discards it, returning only the error.
This partial result is in fact always empty, because the failing record
is the first one whose evaluation reaches the erring clause, so every
earlier record was excluded. -/
theorem C10_amended (dbs : List Database) (fs : List (Option Filter))
    (res : List Database) (e : String)
    (herr : applyFilterOnDatabases dbs fs = (res, some e)) :
    (∃ pre d post, dbs = pre ++ d :: post ∧
      evalClauses d fs true = .error e ∧
      (∀ x ∈ pre, ∃ b, evalClauses x fs true = .ok b) ∧
      res = pre.filter (passesAll fs)) ∧
    res = [] ∧
    dataSourceSqlDatabasesRead (some dbs) (some fs) = .error e := by
  have hloop : applyFilterLoop fs dbs = (res, some e) := by
    cases dbs with
    | nil =>
      rw [applyFilterOnDatabases_nil] at herr
      have : (none : Option String) = some e := congrArg Prod.snd herr
      exact absurd this (by simp)
    | cons d0 ds => rw [applyFilterOnDatabases_cons] at herr; exact herr
  refine ⟨?_, ?_, ?_⟩
  · obtain ⟨pre, d, post, hsplit, hfail, hpre, hres⟩ :=
      applyFilterLoop_error_decomp fs dbs e (by rw [hloop])
    rw [hloop] at hres
    exact ⟨pre, d, post, hsplit, hfail, hpre, hres⟩
  · have := applyFilterLoop_error_empty fs dbs e (by rw [hloop])
    rw [hloop] at this
    exact this
  · simp [dataSourceSqlDatabasesRead, herr]

/-- Witness for C10 amended: the read discards the (empty) partial
result and surfaces the error. -/
theorem C10_amended_witness :
    dataSourceSqlDatabasesRead (some [mysqlDb1]) (some [some ⟨"name", ["["], []⟩]) =
      .error "Invalid regex [" :=
  (C10_amended [mysqlDb1] [some ⟨"name", ["["], []⟩] [] "Invalid regex ["
    (by decide)).2.2

/-- A passing key leaves the accumulator unchanged. -/
theorem errStep_pass (dsAttr rsAttr : List (String × String)) (ig : List String)
    (index acc k : String) (hp : fieldPass dsAttr rsAttr ig index k = true) :
    errStep dsAttr rsAttr ig index acc k = acc := by
  unfold errStep; rw [if_pos hp]

/-- A failing key appends its mismatch line. -/
theorem errStep_fail (dsAttr rsAttr : List (String × String)) (ig : List String)
    (index acc k : String) (hp : fieldPass dsAttr rsAttr ig index k = false) :
    errStep dsAttr rsAttr ig index acc k = acc ++ mismatchLine dsAttr rsAttr index k := by
  unfold errStep; rw [if_neg (by rw [hp]; exact Bool.false_ne_true)]

/-- The accumulation only ever appends: the accumulator is a prefix of
the fold result. -/
theorem errStep_foldl_prefix (dsAttr rsAttr : List (String × String))
    (ig : List String) (index : String) :
    ∀ (keys : List String) (acc : String),
      ∃ s, keys.foldl (errStep dsAttr rsAttr ig index) acc = acc ++ s := by
  intro keys
  induction keys with
  | nil => intro acc; exact ⟨"", (String.append_empty acc).symm⟩
  | cons k keys ih =>
    intro acc
    simp only [List.foldl_cons]
    cases hp : fieldPass dsAttr rsAttr ig index k with
    | true => rw [errStep_pass dsAttr rsAttr ig index acc k hp]; exact ih acc
    | false =>
      rw [errStep_fail dsAttr rsAttr ig index acc k hp]
      obtain ⟨s, hs⟩ := ih (acc ++ mismatchLine dsAttr rsAttr index k)
      exact ⟨mismatchLine dsAttr rsAttr index k ++ s, by
        rw [hs, String.append_assoc]⟩

/-- If every key passes, the fold leaves the accumulator unchanged. -/
theorem errStep_foldl_all_pass (dsAttr rsAttr : List (String × String))
    (ig : List String) (index : String) :
    ∀ (keys : List String) (acc : String),
      (∀ k ∈ keys, fieldPass dsAttr rsAttr ig index k = true) →
      keys.foldl (errStep dsAttr rsAttr ig index) acc = acc := by
  intro keys
  induction keys with
  | nil => intro acc _; rfl
  | cons k keys ih =>
    intro acc hall
    simp only [List.foldl_cons]
    rw [errStep_pass dsAttr rsAttr ig index acc k (hall k (by simp))]
    exact ih acc (fun q hq => hall q (List.mem_cons_of_mem k hq))

/-- A mismatch line is never empty (it ends in a newline). -/
theorem mismatchLine_length_pos (dsAttr rsAttr : List (String × String))
    (index k : String) : 0 < (mismatchLine dsAttr rsAttr index k).length := by
  unfold mismatchLine
  simp only [String.length_append]
  have h4 : (" is " : String).length = 4 := rfl
  omega

/-- If the fold result is empty, every key passed (a failing key would
have contributed a non-empty line). -/
theorem errStep_foldl_empty (dsAttr rsAttr : List (String × String))
    (ig : List String) (index : String) :
    ∀ (keys : List String) (acc : String),
      keys.foldl (errStep dsAttr rsAttr ig index) acc = "" →
      ∀ k ∈ keys, fieldPass dsAttr rsAttr ig index k = true := by
  intro keys
  induction keys with
  | nil => intro acc _ k hk; exact absurd hk (by simp)
  | cons q keys ih =>
    intro acc hempty k hk
    simp only [List.foldl_cons] at hempty
    cases hp : fieldPass dsAttr rsAttr ig index q with
    | true =>
      rw [errStep_pass dsAttr rsAttr ig index acc q hp] at hempty
      rcases List.mem_cons.mp hk with rfl | hk'
      · exact hp
      · exact ih acc hempty k hk'
    | false =>
      rw [errStep_fail dsAttr rsAttr ig index acc q hp] at hempty
      obtain ⟨s, hs⟩ := errStep_foldl_prefix dsAttr rsAttr ig index keys
        (acc ++ mismatchLine dsAttr rsAttr index q)
      rw [hs] at hempty
      have hlen := congrArg String.length hempty
      simp only [String.length_append] at hlen
      have hpos := mismatchLine_length_pos dsAttr rsAttr index q
      have hzero : ("" : String).length = 0 := rfl
      omega

/-- Every failing key contributes its mismatch line to the fold result,
as a substring. -/
theorem errStep_foldl_line_substr (dsAttr rsAttr : List (String × String))
    (ig : List String) (index : String) :
    ∀ (keys : List String) (acc k : String),
      k ∈ keys → fieldPass dsAttr rsAttr ig index k = false →
      ∃ s1 s2, keys.foldl (errStep dsAttr rsAttr ig index) acc =
        s1 ++ mismatchLine dsAttr rsAttr index k ++ s2 := by
  intro keys
  induction keys with
  | nil => intro acc k hk; exact absurd hk (by simp)
  | cons q keys ih =>
    intro acc k hk hfail
    simp only [List.foldl_cons]
    rcases List.mem_cons.mp hk with rfl | hk'
    · rw [errStep_fail dsAttr rsAttr ig index acc k hfail]
      obtain ⟨s, hs⟩ := errStep_foldl_prefix dsAttr rsAttr ig index keys
        (acc ++ mismatchLine dsAttr rsAttr index k)
      exact ⟨acc, s, by rw [hs]⟩
    · exact ih (errStep dsAttr rsAttr ig index acc q) k hk' hfail

/-- The per-field success condition of the comparison loop: the two
sides agree, or the key is count-suffixed and both sides are empty
(either `""` or `"0"`). -/
def fieldOk (dsAttr rsAttr : List (String × String)) (index k : String) : Prop :=
  getAttr dsAttr ("databases." ++ index ++ "." ++ k) = getAttr rsAttr k ∨
  (endsInHash k = true ∧
   (getAttr dsAttr ("databases." ++ index ++ "." ++ k) = "" ∨
    getAttr dsAttr ("databases." ++ index ++ "." ++ k) = "0") ∧
   (getAttr rsAttr k = "" ∨ getAttr rsAttr k = "0"))

instance (dsAttr rsAttr : List (String × String)) (index k : String) :
    Decidable (fieldOk dsAttr rsAttr index k) := by
  unfold fieldOk; infer_instance

/-- The boolean skip conditions read back as a disjunction. -/
theorem fieldPass_true_iff (dsAttr rsAttr : List (String × String)) (ig : List String)
    (index k : String) :
    fieldPass dsAttr rsAttr ig index k = true ↔
      (k ∈ ig ∨ k = "%" ∨ fieldOk dsAttr rsAttr index k) := by
  unfold fieldPass fieldOk
  simp only [Bool.or_eq_true, Bool.and_eq_true, beq_iff_eq, List.elem_iff]
  tauto

/-- The boolean skip conditions in guarded form: a key passes exactly
when, if it is neither ignored nor the meta key, the fields agree (up to
the count-suffix tolerance). -/
theorem fieldPass_impl_iff (dsAttr rsAttr : List (String × String)) (ig : List String)
    (index k : String) :
    fieldPass dsAttr rsAttr ig index k = true ↔
      (k ∉ ig → k ≠ "%" → fieldOk dsAttr rsAttr index k) := by
  rw [fieldPass_true_iff]
  constructor
  · rintro (hA | hB | hC) hcf hke
    · exact absurd hA hcf
    · exact absurd hB hke
    · exact hC
  · intro himp
    by_cases hA : k ∈ ig
    · exact Or.inl hA
    · by_cases hB : k = "%"
      · exact Or.inr (Or.inl hB)
      · exact Or.inr (Or.inr (himp hA hB))

/-- With a parsable `databases.#` and an index found, the checker is
decided by the accumulated `errMsg` alone. -/
theorem check_eq_of_found (dsAttr rsAttr : List (String × String)) (ig : List String)
    (total : Int)
    (h1 : strconvAtoi (getAttr dsAttr "databases.#") = some total)
    (h2 : findIndex dsAttr rsAttr total.toNat ≠ "-1") :
    checkDatabaseFieldsMatchForDataSourceStateAndResourceState dsAttr rsAttr ig =
      (if fieldsErrMsg dsAttr rsAttr ig (findIndex dsAttr rsAttr total.toNat) != "" then
        some (fieldsErrMsg dsAttr rsAttr ig (findIndex dsAttr rsAttr total.toNat))
      else none) := by
  unfold checkDatabaseFieldsMatchForDataSourceStateAndResourceState
  rw [h1]
  have hbeq : (findIndex dsAttr rsAttr total.toNat == "-1") = false :=
    beq_eq_false_iff_ne.mpr h2
  simp only [hbeq]
  rfl

/-- C8 (confirmed, under the hypotheses that the record count parses and
the expected record is found): the verification returns OK exactly when
every resource-state field outside the ignored set and the meta field `%`
matches the data-source entry, with count-suffixed fields tolerated when
both sides are empty (`""` or `"0"`); and on failure the error message
contains the `<field> is <actual>; want <expected>` line of every
mismatched field, not just the first. -/
theorem C8_verify_fields_match (dsAttr rsAttr : List (String × String)) (ig : List String)
    (total : Int)
    (h1 : strconvAtoi (getAttr dsAttr "databases.#") = some total)
    (h2 : findIndex dsAttr rsAttr total.toNat ≠ "-1") :
    (checkDatabaseFieldsMatchForDataSourceStateAndResourceState dsAttr rsAttr ig = none ↔
      ∀ k ∈ rsAttr.map Prod.fst, k ∉ ig → k ≠ "%" →
        fieldOk dsAttr rsAttr (findIndex dsAttr rsAttr total.toNat) k) ∧
    (∀ msg,
      checkDatabaseFieldsMatchForDataSourceStateAndResourceState dsAttr rsAttr ig = some msg →
      ∀ k ∈ rsAttr.map Prod.fst,
        fieldPass dsAttr rsAttr ig (findIndex dsAttr rsAttr total.toNat) k = false →
        ∃ s1 s2, msg =
          s1 ++ mismatchLine dsAttr rsAttr (findIndex dsAttr rsAttr total.toNat) k ++ s2) := by
  have hcheck := check_eq_of_found dsAttr rsAttr ig total h1 h2
  constructor
  · rw [hcheck]
    constructor
    · intro hnone k hk hcf hke
      by_cases hmsg : fieldsErrMsg dsAttr rsAttr ig (findIndex dsAttr rsAttr total.toNat) = ""
      · have hpass := errStep_foldl_empty dsAttr rsAttr ig
          (findIndex dsAttr rsAttr total.toNat) (rsAttr.map Prod.fst) "" hmsg k hk
        exact (fieldPass_impl_iff dsAttr rsAttr ig
          (findIndex dsAttr rsAttr total.toNat) k).mp hpass hcf hke
      · rw [if_pos (bne_iff_ne.mpr hmsg)] at hnone
        exact absurd hnone (by simp)
    · intro hall
      have hmsg : fieldsErrMsg dsAttr rsAttr ig (findIndex dsAttr rsAttr total.toNat) = "" :=
        errStep_foldl_all_pass dsAttr rsAttr ig (findIndex dsAttr rsAttr total.toNat)
          (rsAttr.map Prod.fst) ""
          (fun k hk => (fieldPass_impl_iff dsAttr rsAttr ig
            (findIndex dsAttr rsAttr total.toNat) k).mpr (hall k hk))
      rw [hmsg]
      rfl
  · intro msg hmsg k hk hfail
    rw [hcheck] at hmsg
    by_cases hempty : fieldsErrMsg dsAttr rsAttr ig (findIndex dsAttr rsAttr total.toNat) = ""
    · have hpass := errStep_foldl_empty dsAttr rsAttr ig
        (findIndex dsAttr rsAttr total.toNat) (rsAttr.map Prod.fst) "" hempty k hk
      rw [hfail] at hpass
      exact absurd hpass (by simp)
    · rw [if_pos (bne_iff_ne.mpr hempty)] at hmsg
      have heq : fieldsErrMsg dsAttr rsAttr ig (findIndex dsAttr rsAttr total.toNat) = msg :=
        (Option.some.injEq _ _).mp hmsg
      rw [← heq]
      exact errStep_foldl_line_substr dsAttr rsAttr ig
        (findIndex dsAttr rsAttr total.toNat) (rsAttr.map Prod.fst) "" k hk hfail

/-- Witness for C8: a resource state whose `charset` matches, whose
`collation#` count field is `"0"` against an absent data-source field
(tolerated), and which is found at index 0, verifies as OK. -/
theorem C8_verify_fields_match_witness :
    checkDatabaseFieldsMatchForDataSourceStateAndResourceState
      [("databases.#", "1"), ("databases.0.name", "db"), ("databases.0.charset", "UTF8")]
      [("name", "db"), ("charset", "UTF8"), ("x#", "0")] [] = none :=
  (C8_verify_fields_match
    [("databases.#", "1"), ("databases.0.name", "db"), ("databases.0.charset", "UTF8")]
    [("name", "db"), ("charset", "UTF8"), ("x#", "0")] [] 1
    (by decide) (by decide)).1.mpr (by decide)

end SqlDatabases
